import Mathlib

/-!
Verification of the spatial-grid / cache-state persistence engine of the
`cmpm-121-demo-3` map game (source: `src/main.ts`, with the Board flyweight
of `board.ts` modelled from the specification).

The embedding translates the TypeScript source into executable Lean
definitions.  JavaScript numbers are modelled by `Demo3.JSNum`: the program
only ever stores integers (cell indices and coin counts) in its `Geocache`
fields, but parsing a corrupted memento string with `Number` can produce
`NaN`, and array destructuring past the end produces `undefined`, so both
are represented.  Floating-point geometry (the trigonometric cache-placement
offsets and `isCacheVisible`) is abstracted into an environment that tells
each loop iteration which grid cell its computed location resolves to and
whether the visibility test passed; everything downstream of that test is
modelled exactly.
-/

namespace Demo3

/-- A JavaScript numeric value as it can appear in this program: a finite
number (always an integer or a decimal fraction here, represented as a
rational), `NaN` (from `Number` applied to a non-numeric string), or
`undefined` (from destructuring a too-short array). -/
inductive JSNum where
  | num (q : ℚ)
  | nan
  | undef
deriving DecidableEq, Repr

/-- Numeric value of a decimal digit character. -/
def digitVal (c : Char) : Nat := c.toNat - 48

/-- Value of a most-significant-first digit string. -/
def digitsVal (cs : List Char) : Nat :=
  cs.foldl (fun a c => 10 * a + digitVal c) 0

/-- Decimal digits of `n`, most significant first (`[]` for `0`).
Models how JavaScript renders a nonnegative integer in a template literal. -/
def natStrAux (n : Nat) : List Char :=
  if h : n = 0 then []
  else natStrAux (n / 10) ++ [Nat.digitChar (n % 10)]
termination_by n
decreasing_by exact Nat.div_lt_self (Nat.pos_of_ne_zero h) (by decide)

/-- Decimal rendering of a natural number, as a JS template literal
produces for a nonnegative integer. -/
def natStr (n : Nat) : String :=
  if n = 0 then "0" else String.mk (natStrAux n)

/-- Decimal rendering of an integer, as a JS template literal produces
(`${i}` for an integral number `i`). -/
def intStr : Int → String
  | Int.ofNat m => natStr m
  | Int.negSucc m => "-" ++ natStr (m + 1)

/-- JS `String.prototype.split` with a single-character separator, on the
character list of the string.  `"".split(sep)` yields `[""]`. -/
def splitOnChar (sep : Char) : List Char → List (List Char)
  | [] => [[]]
  | c :: rest =>
    match splitOnChar sep rest with
    | [] => [[]]
    | h :: t => if c = sep then [] :: h :: t else (c :: h) :: t

/-- Parse an unsigned decimal numeral (integer part, optional point and
fraction part), the fragment of JS `Number` string conversion that the
program's memento strings (and their corruptions considered here) exercise.
Other JS numeric forms (hexadecimal, exponent, `Infinity`, surrounding
whitespace) do not occur in the modelled strings. -/
def parseUnsigned (cs : List Char) : Option ℚ :=
  let intPart := cs.takeWhile Char.isDigit
  let rest := cs.dropWhile Char.isDigit
  match rest with
  | [] => if intPart.isEmpty then none else some ((digitsVal intPart : ℚ))
  | '.' :: frac =>
    if frac.all Char.isDigit then
      if intPart.isEmpty && frac.isEmpty then none
      else some ((digitsVal intPart : ℚ) + (digitsVal frac : ℚ) / ((10 : ℚ) ^ frac.length))
    else none
  | _ => none

/-- Wrap an optionally parsed magnitude into a JS number, applying the sign;
an unparsable string is `NaN`. -/
def signedNum (neg : Bool) : Option ℚ → JSNum
  | some q => JSNum.num (if neg then -q else q)
  | none => JSNum.nan

/-- JS `Number(s)` on the character list of `s`, for the string forms
relevant to this program: the empty string is `0`, an optional sign is
followed by an unsigned decimal numeral, anything else is `NaN`. -/
def jsNumberL : List Char → JSNum
  | [] => JSNum.num 0
  | c :: rest =>
    if c = '-' then signedNum true (parseUnsigned rest)
    else if c = '+' then signedNum false (parseUnsigned rest)
    else signedNum false (parseUnsigned (c :: rest))

/-- JS `Number(s)`. -/
def jsNumber (s : String) : JSNum := jsNumberL s.data

/-- Number of iterations of the JS loop `for (let k = 0; k < bound; k++)`
when `bound` is the given JS value: `NaN`/`undefined` comparisons are false,
so those bounds give zero iterations. -/
def jsLoopCount : JSNum → Nat
  | JSNum.num q => (Int.ceil q).toNat
  | JSNum.nan => 0
  | JSNum.undef => 0

/-- JS rendering of a number in a template literal, for the values this
program stringifies (always integral); `NaN` and `undefined` render as their
JS names. -/
def jsNumToString : JSNum → String
  | JSNum.num q => intStr q.num
  | JSNum.nan => "NaN"
  | JSNum.undef => "undefined"

-- Facts about digits and decimal rendering.

theorem digitChar_isDigit (d : Nat) (h : d < 10) : (Nat.digitChar d).isDigit = true := by
  interval_cases d <;> decide

theorem digitVal_digitChar (d : Nat) (h : d < 10) : digitVal (Nat.digitChar d) = d := by
  interval_cases d <;> decide

theorem isDigit_ne (c x : Char) (h : c.isDigit = true) (hx : x.isDigit = false) : c ≠ x := by
  intro he
  rw [he, hx] at h
  exact Bool.noConfusion h

theorem natStrAux_digits (n : Nat) : ∀ c ∈ natStrAux n, c.isDigit = true := by
  induction n using Nat.strong_induction_on with
  | _ n ih =>
    intro c hc
    rw [natStrAux] at hc
    by_cases h : n = 0
    · simp [h] at hc
    · simp only [h, dite_false, List.mem_append, List.mem_singleton] at hc
      rcases hc with hc | hc
      · exact ih (n / 10) (Nat.div_lt_self (Nat.pos_of_ne_zero h) (by decide)) c hc
      · rw [hc]
        exact digitChar_isDigit _ (Nat.mod_lt _ (by decide))

theorem natStrAux_ne_nil (n : Nat) (h : n ≠ 0) : natStrAux n ≠ [] := by
  rw [natStrAux]
  simp [h]

theorem digitsVal_natStrAux (n : Nat) : digitsVal (natStrAux n) = n := by
  induction n using Nat.strong_induction_on with
  | _ n ih =>
    rw [natStrAux]
    by_cases h : n = 0
    · simp [h, digitsVal]
    · simp only [h, dite_false]
      have hlt : n / 10 < n := Nat.div_lt_self (Nat.pos_of_ne_zero h) (by decide)
      have := ih (n / 10) hlt
      simp only [digitsVal, List.foldl_append, List.foldl_cons, List.foldl_nil] at this ⊢
      rw [this, digitVal_digitChar _ (Nat.mod_lt _ (by decide))]
      omega

theorem takeWhile_all {p : Char → Bool} (cs : List Char) (h : ∀ c ∈ cs, p c = true) :
    cs.takeWhile p = cs := by
  induction cs with
  | nil => rfl
  | cons c rest ih =>
    simp [List.takeWhile_cons, h c (List.mem_cons_self c rest), ih
      (fun x hx => h x (List.mem_cons_of_mem c hx))]

theorem dropWhile_all {p : Char → Bool} (cs : List Char) (h : ∀ c ∈ cs, p c = true) :
    cs.dropWhile p = [] := by
  induction cs with
  | nil => rfl
  | cons c rest ih =>
    simp [List.dropWhile_cons, h c (List.mem_cons_self c rest), ih
      (fun x hx => h x (List.mem_cons_of_mem c hx))]

theorem parseUnsigned_digits (cs : List Char) (hne : cs ≠ [])
    (hd : ∀ c ∈ cs, c.isDigit = true) :
    parseUnsigned cs = some ((digitsVal cs : ℚ)) := by
  unfold parseUnsigned
  rw [takeWhile_all cs hd, dropWhile_all cs hd]
  simp [List.isEmpty_iff, hne]

theorem jsNumberL_natStr (n : Nat) : jsNumberL (natStr n).data = JSNum.num n := by
  unfold natStr
  by_cases h : n = 0
  · simp [h]
    decide
  · simp only [h, if_false]
    have hne := natStrAux_ne_nil n h
    have hd := natStrAux_digits n
    match hcs : natStrAux n with
    | [] => exact absurd hcs hne
    | c :: rest =>
      have hc : c.isDigit = true := by
        rw [hcs] at hd
        exact hd c (List.mem_cons_self c rest)
      have hcm : c ≠ '-' := isDigit_ne c _ hc (by decide)
      have hcp : c ≠ '+' := isDigit_ne c _ hc (by decide)
      show jsNumberL (c :: rest) = JSNum.num n
      rw [jsNumberL]
      simp only [hcm, if_false, hcp]
      rw [parseUnsigned_digits (c :: rest) (List.cons_ne_nil c rest) (hcs ▸ hd)]
      rw [signedNum, ← hcs, digitsVal_natStrAux]
      simp

theorem jsNumberL_intStr (z : Int) : jsNumberL (intStr z).data = JSNum.num (z : ℚ) := by
  match z with
  | Int.ofNat m =>
    rw [intStr, jsNumberL_natStr]
    norm_cast
  | Int.negSucc m =>
    rw [intStr]
    show jsNumberL (("-" ++ natStr (m + 1)).data) = _
    rw [String.data_append]
    have hne := natStrAux_ne_nil (m + 1) (Nat.succ_ne_zero m)
    have hd := natStrAux_digits (m + 1)
    show jsNumberL (Char.ofNat 45 :: (natStr (m + 1)).data) = _
    rw [jsNumberL]
    simp only [show Char.ofNat 45 = '-' from rfl, if_true]
    have hdata : (natStr (m + 1)).data = natStrAux (m + 1) := by
      unfold natStr
      simp [Nat.succ_ne_zero m]
    rw [hdata, parseUnsigned_digits _ hne hd, signedNum, digitsVal_natStrAux]
    rw [Int.cast_negSucc]
    norm_num

theorem intStr_injective (a b : Int) (h : intStr a = intStr b) : a = b := by
  have := jsNumberL_intStr a
  rw [h, jsNumberL_intStr b] at this
  have hq : (b : ℚ) = (a : ℚ) := by
    injection this
  exact_mod_cast hq.symm

theorem natStr_digits (n : Nat) : ∀ c ∈ (natStr n).data, c.isDigit = true := by
  unfold natStr
  by_cases h : n = 0
  · simp only [h, if_true]
    intro c hc
    simp at hc
    rw [hc]
    decide
  · simp only [h, if_false]
    exact natStrAux_digits n

theorem comma_not_mem_intStr (z : Int) : ',' ∉ (intStr z).data := by
  intro hmem
  match z with
  | Int.ofNat m =>
    have := natStr_digits m ',' hmem
    exact absurd this (by decide)
  | Int.negSucc m =>
    rw [intStr] at hmem
    rw [String.data_append] at hmem
    rcases List.mem_append.mp hmem with hmem | hmem
    · simp at hmem
    · have := natStr_digits (m + 1) ',' hmem
      exact absurd this (by decide)

theorem splitOnChar_no_sep (sep : Char) (cs : List Char) (h : sep ∉ cs) :
    splitOnChar sep cs = [cs] := by
  induction cs with
  | nil => rfl
  | cons c rest ih =>
    rw [splitOnChar, ih (fun hm => h (List.mem_cons_of_mem c hm))]
    have hc : ¬ c = sep := fun he => h (he ▸ List.mem_cons_self c rest)
    simp [hc]

theorem splitOnChar_append (sep : Char) (a rest : List Char) (h : sep ∉ a) :
    splitOnChar sep (a ++ sep :: rest) = a :: splitOnChar sep rest := by
  induction a with
  | nil =>
    simp only [List.nil_append]
    rw [splitOnChar]
    match hs : splitOnChar sep rest with
    | [] => simp
    | h1 :: t => simp
  | cons c a' ih =>
    have hc : ¬ c = sep := fun he => h (he ▸ List.mem_cons_self c a')
    have htail : sep ∉ a' := fun hm => h (List.mem_cons_of_mem c hm)
    simp only [List.cons_append]
    rw [splitOnChar, ih htail]
    simp [hc]

-- Data model (src/main.ts and the board.ts interface it imports).

/-- `Cell` from `board.ts`: the integer grid coordinates of one grid square. -/
structure Cell where
  i : Int
  j : Int
deriving DecidableEq, Repr

/-- `interface Coin` (src/main.ts lines 48-51). -/
structure Coin where
  id : String
  originatingCacheId : String
deriving DecidableEq, Repr

/-- `interface Cache` (src/main.ts lines 53-57). -/
structure Cache where
  cell : Cell
  coins : List Coin
  id : String
deriving DecidableEq, Repr

/-- `class Geocache implements Momento<string>` (src/main.ts lines 133-154):
fields `i`, `j`, `numCoins` are JS numbers; `fromMomento` can leave `NaN` or
`undefined` in them when the memento string is malformed. -/
structure Geocache where
  i : JSNum
  j : JSNum
  numCoins : JSNum
deriving DecidableEq, Repr

/-- `toMomento()` (src/main.ts lines 144-146): the template literal
`i,j,numCoins`. -/
def Geocache.toMomento (g : Geocache) : String :=
  jsNumToString g.i ++ "," ++ jsNumToString g.j ++ "," ++ jsNumToString g.numCoins

/-- `fromMomento(momento)` (src/main.ts lines 148-153):
`momento.split(",").map(Number)` destructured into the three fields; a
missing component is `undefined`, a non-numeric component is `NaN`.  The
receiver's previous fields are entirely overwritten. -/
def Geocache.fromMomento : Geocache → String → Geocache :=
  fun _ momento =>
    let parts := (splitOnChar ',' momento.data).map jsNumberL
    ⟨parts.getD 0 JSNum.undef, parts.getD 1 JSNum.undef, parts.getD 2 JSNum.undef⟩

/-- An integral-valued `Geocache`, as every constructor call in the source
produces (`new Geocache(i, j, n)` with integer arguments). -/
def Geocache.ofInts (zi zj zn : Int) : Geocache :=
  ⟨JSNum.num (zi : ℚ), JSNum.num (zj : ℚ), JSNum.num (zn : ℚ)⟩

theorem jsNumToString_int (z : Int) : jsNumToString (JSNum.num (z : ℚ)) = intStr z := by
  rw [jsNumToString]
  norm_num

theorem toMomento_ofInts (zi zj zn : Int) :
    (Geocache.ofInts zi zj zn).toMomento = intStr zi ++ "," ++ intStr zj ++ "," ++ intStr zn := by
  rw [Geocache.ofInts, Geocache.toMomento]
  simp [jsNumToString_int]

theorem data_toMomento_ofInts (zi zj zn : Int) :
    (Geocache.ofInts zi zj zn).toMomento.data =
      (intStr zi).data ++ ',' :: ((intStr zj).data ++ ',' :: (intStr zn).data) := by
  rw [toMomento_ofInts]
  simp only [String.data_append]
  simp [List.append_assoc]

/-- Core memento round trip: restoring the memento of an integral-valued
`Geocache` into any fresh `Geocache` reproduces the three fields. -/
theorem fromMomento_toMomento_ofInts (g0 : Geocache) (zi zj zn : Int) :
    g0.fromMomento (Geocache.ofInts zi zj zn).toMomento = Geocache.ofInts zi zj zn := by
  rw [Geocache.fromMomento, data_toMomento_ofInts]
  rw [splitOnChar_append ',' _ _ (comma_not_mem_intStr zi)]
  rw [splitOnChar_append ',' _ _ (comma_not_mem_intStr zj)]
  rw [splitOnChar_no_sep ',' _ (comma_not_mem_intStr zn)]
  simp only [List.map_cons, List.map_nil, List.getD]
  simp [jsNumberL_intStr, Geocache.ofInts]

theorem toMomento_ofInts_ne_empty (zi zj zn : Int) :
    (Geocache.ofInts zi zj zn).toMomento ≠ "" := by
  intro h
  have hd : (Geocache.ofInts zi zj zn).toMomento.data = [] := by
    rw [h]
  rw [data_toMomento_ofInts] at hd
  exact absurd hd (by simp)

-- The string-keyed dictionary `geocacheMementos` (src/main.ts line 157),
-- modelled as an association list with overwrite-on-assignment.

/-- Lookup in a JS string-keyed dictionary. -/
def storeGet (m : List (String × String)) (k : String) : Option String :=
  (m.find? (fun p => p.1 == k)).map (fun p => p.2)

/-- Assignment `dict[k] = v` in a JS string-keyed dictionary: the new
binding shadows any earlier one, so a later `storeGet` observes exactly the
overwrite-on-assignment behaviour of the source dictionary. -/
def storeSet (m : List (String × String)) (k v : String) : List (String × String) :=
  (k, v) :: m

theorem storeGet_set_same (m : List (String × String)) (k v : String) :
    storeGet (storeSet m k v) k = some v := by
  simp [storeGet, storeSet, List.find?_cons_of_pos]

theorem storeGet_set_ne (m : List (String × String)) (k v k2 : String) (h : k2 ≠ k) :
    storeGet (storeSet m k v) k2 = storeGet m k2 := by
  rw [storeGet, storeSet, List.find?_cons_of_neg, storeGet]
  simp
  exact fun he => h he.symm

/-- The dictionary key for a cell, the template literal `i,j`
(src/main.ts lines 163 and 196). -/
def cellKey (c : Cell) : String := intStr c.i ++ "," ++ intStr c.j

theorem cellKey_injective (a b : Cell) (h : cellKey a = cellKey b) : a = b := by
  have hd : (cellKey a).data = (cellKey b).data := by rw [h]
  rw [cellKey, cellKey] at hd
  simp only [String.data_append] at hd
  have hd2 : (intStr a.i).data ++ ',' :: (intStr a.j).data =
      (intStr b.i).data ++ ',' :: (intStr b.j).data := by
    simpa [List.append_assoc] using hd
  have hsplit := congrArg (splitOnChar ',') hd2
  rw [splitOnChar_append ',' _ _ (comma_not_mem_intStr a.i),
      splitOnChar_append ',' _ _ (comma_not_mem_intStr b.i),
      splitOnChar_no_sep ',' _ (comma_not_mem_intStr a.j),
      splitOnChar_no_sep ',' _ (comma_not_mem_intStr b.j)] at hsplit
  simp only [List.cons.injEq, and_true] at hsplit
  obtain ⟨hi, hj⟩ := hsplit
  have hieq : a.i = b.i := intStr_injective _ _ (String.ext hi)
  have hjeq : a.j = b.j := intStr_injective _ _ (String.ext hj)
  cases a
  cases b
  simp_all

-- Game state and the collect/deposit handlers (src/main.ts lines 44-45,
-- 78, 157, 233-265).

/-- The mutable module-level state of src/main.ts that the verified core
touches: `playerCoins`, `cacheLocations` and `geocacheMementos`. -/
structure GameState where
  playerCoins : Nat
  cacheLocations : List Cache
  geocacheMementos : List (String × String)
deriving DecidableEq, Repr

/-- Outcome of `handleCollect`: the collected coin (JS `Array.pop` returns
the element or `undefined`), or the empty-cache branch that only shows an
alert. -/
inductive CollectResult where
  | ok (coin : Option Coin)
  | emptyCacheError
deriving DecidableEq, Repr

/-- Outcome of `handleDeposit`. -/
inductive DepositResult where
  | ok
  | noCoinsHeldError
deriving DecidableEq, Repr

/-- `handleCollect(index)` (src/main.ts lines 233-246).  `none` models the
JS `TypeError` thrown when `cacheLocations[index]` is `undefined` (the
handler is only wired to indices of existing caches); otherwise: if the
cache has coins, increment `playerCoins` and `pop()` the last coin, else
report the empty-cache message and change nothing. -/
def handleCollect (s : GameState) (index : Nat) : Option (GameState × CollectResult) :=
  match s.cacheLocations[index]? with
  | none => none
  | some cache =>
    if 0 < cache.coins.length then
      some (⟨s.playerCoins + 1,
             s.cacheLocations.set index ⟨cache.cell, cache.coins.dropLast, cache.id⟩,
             s.geocacheMementos⟩,
            CollectResult.ok cache.coins.getLast?)
    else
      some (s, CollectResult.emptyCacheError)

/-- `handleDeposit(index)` (src/main.ts lines 249-265).  The player-coins
check comes first, so a zero balance reports the no-coins message without
touching the cache; otherwise a brand-new coin with id
`cache-<index>-coin-<cache.coins.length>` is minted and pushed. -/
def handleDeposit (s : GameState) (index : Nat) : Option (GameState × DepositResult) :=
  if 0 < s.playerCoins then
    match s.cacheLocations[index]? with
    | none => none
    | some cache =>
      some (⟨s.playerCoins - 1,
             s.cacheLocations.set index
               ⟨cache.cell,
                cache.coins ++
                  [⟨"cache-" ++ natStr index ++ "-coin-" ++ natStr cache.coins.length,
                    cache.id⟩],
                cache.id⟩,
             s.geocacheMementos⟩,
            DepositResult.ok)
  else
    some (s, DepositResult.noCoinsHeldError)

/-- `generateNumberOfCoins(cacheId)` (src/main.ts lines 223-226):
`Math.floor(luck(cacheId + ",coins") * 10 + 1)`, with the deterministic
value generator `luck` (from the absent `luck.ts`) as a parameter. -/
def generateNumberOfCoins (luck : String → ℚ) (cacheId : String) : Int :=
  Int.floor (luck (cacheId ++ ",coins") * 10 + 1)

-- The cache lifecycle pass `updateCacheLocations` (src/main.ts lines
-- 160-221).

/-- What the floating-point geometry of one loop iteration of
`updateCacheLocations` amounts to: whether the location computed for
`cache-<i>` passed `isCacheVisible`, and the cell
`board.getCellForPoint` resolves that location to. -/
structure CacheCandidate where
  visible : Bool
  cell : Cell
deriving DecidableEq, Repr

/-- The memento written for a live cache by the save phase
(src/main.ts lines 161-169): `new Geocache(i, j, coins.length).toMomento()`. -/
def cacheMomento (g : Cache) : String :=
  (Geocache.ofInts g.cell.i g.cell.j (g.coins.length : Int)).toMomento

/-- The save phase of `updateCacheLocations` (lines 161-169): for each live
cache, in list order, store its memento under the key `i,j`. -/
def saveMementos (ms : List (String × String)) : List Cache → List (String × String)
  | [] => ms
  | g :: rest => saveMementos (storeSet ms (cellKey g.cell) (cacheMomento g)) rest

/-- The coin count chosen for a visible cell (lines 196-206): if the
memento dictionary has a truthy entry for the cell's key, restore it via
`fromMomento`; otherwise generate a fresh count.  (`if (geocacheMementos[key])`
is falsy for a missing entry and for the empty string.) -/
def iterationNumCoins (luck : String → ℚ) (ms : List (String × String))
    (cacheId : String) (c : Cell) : JSNum :=
  match storeGet ms (cellKey c) with
  | some m =>
    if m = "" then JSNum.num ((generateNumberOfCoins luck cacheId : Int) : ℚ)
    else ((Geocache.ofInts c.i c.j 0).fromMomento m).numCoins
  | none => JSNum.num ((generateNumberOfCoins luck cacheId : Int) : ℚ)

/-- The coin id `i:j#k` (line 210). -/
def coinIdStr (c : Cell) (k : Nat) : String :=
  intStr c.i ++ ":" ++ intStr c.j ++ "#" ++ natStr k

/-- The coin list built for a materialized cache (lines 208-215). -/
def buildCoins (c : Cell) (cacheId : String) (n : Nat) : List Coin :=
  (List.range n).map (fun k => ⟨coinIdStr c k, cacheId⟩)

/-- One iteration of the generation loop (lines 180-219): if the computed
location is visible, materialize one cache for it (restored or fresh),
else nothing. -/
def genIteration (luck : String → ℚ) (env : Nat → CacheCandidate)
    (ms : List (String × String)) (i : Nat) : List Cache :=
  let cacheId := "cache-" ++ natStr i
  if (env i).visible then
    let c := (env i).cell
    let n := jsLoopCount (iterationNumCoins luck ms cacheId c)
    [⟨c, buildCoins c cacheId n, cacheId⟩]
  else []

/-- The caches produced by the generation loop iterations `0 .. count-1`,
in loop order. -/
def genCaches (luck : String → ℚ) (env : Nat → CacheCandidate)
    (ms : List (String × String)) : Nat → List Cache
  | 0 => []
  | Nat.succ i => genCaches luck env ms i ++ genIteration luck env ms i

/-- `updateCacheLocations()` (src/main.ts lines 160-221): save a memento
for every live cache, clear `cacheLocations`, then run the fixed
`for (let i = 0; i < 5; i++)` loop that materializes at most one cache per
iteration.  Map-marker manipulation is presentation-layer and omitted. -/
def updateCacheLocations (luck : String → ℚ) (env : Nat → CacheCandidate)
    (s : GameState) : GameState :=
  let ms := saveMementos s.geocacheMementos s.cacheLocations
  ⟨s.playerCoins, genCaches luck env ms 5, ms⟩

-- The grid index.

/-- Modelled from the spec: the repository's `board.ts` (the `Board` class
with its flyweight cell registry and `getCellForPoint`) is not under `src/`;
only its call sites in `main.ts` are.  Per the spec (sections 4.2 and 9), the
Board computes `i = floor(lat / cellWidth)`, `j = floor(lng / cellWidth)`,
keeps a string-keyed flyweight registry of known cells, and
creates-and-registers a cell on a registry miss.  Coordinates are modelled
as rationals in place of floats. -/
structure Board where
  tileWidth : ℚ
  tileVisibilityRadius : Nat
  knownCells : List (String × Cell)
deriving DecidableEq, Repr

/-- Lookup in the Board's flyweight registry. -/
def knownCellsGet (m : List (String × Cell)) (k : String) : Option Cell :=
  (m.find? (fun p => p.1 == k)).map (fun p => p.2)

/-- Modelled from the spec: `board.getCellForPoint(point)` — floor the
coordinates to grid indices, return the registered flyweight cell if the
key is known, otherwise create and register a new cell.  The updated board
is returned alongside (explicit state passing for the mutable registry). -/
def Board.getCellForPoint (b : Board) (lat lng : ℚ) : Cell × Board :=
  let i := Int.floor (lat / b.tileWidth)
  let j := Int.floor (lng / b.tileWidth)
  let key := cellKey ⟨i, j⟩
  match knownCellsGet b.knownCells key with
  | some c => (c, b)
  | none =>
    let c : Cell := ⟨i, j⟩
    (c, ⟨b.tileWidth, b.tileVisibilityRadius, (key, c) :: b.knownCells⟩)

theorem getCellForPoint_eq_some (b : Board) (lat lng : ℚ) (c : Cell)
    (hget : knownCellsGet b.knownCells
      (cellKey ⟨Int.floor (lat / b.tileWidth), Int.floor (lng / b.tileWidth)⟩) = some c) :
    b.getCellForPoint lat lng = (c, b) := by
  rw [Board.getCellForPoint]
  simp only [hget]

theorem getCellForPoint_eq_none (b : Board) (lat lng : ℚ)
    (hget : knownCellsGet b.knownCells
      (cellKey ⟨Int.floor (lat / b.tileWidth), Int.floor (lng / b.tileWidth)⟩) = none) :
    b.getCellForPoint lat lng =
      (⟨Int.floor (lat / b.tileWidth), Int.floor (lng / b.tileWidth)⟩,
       ⟨b.tileWidth, b.tileVisibilityRadius,
        (cellKey ⟨Int.floor (lat / b.tileWidth), Int.floor (lng / b.tileWidth)⟩,
         (⟨Int.floor (lat / b.tileWidth), Int.floor (lng / b.tileWidth)⟩ : Cell)) ::
          b.knownCells⟩) := by
  rw [Board.getCellForPoint]
  simp only [hget]

/-- C3: two lookups with the same input coordinates return the identical
Cell record, and the second lookup allocates nothing (the registry — hence
the whole board — is unchanged), so at most one Cell ever exists per
`(i, j)` pair. -/
theorem getCellForPoint_flyweight (b : Board) (lat lng : ℚ) :
    ((b.getCellForPoint lat lng).2.getCellForPoint lat lng).1 =
        (b.getCellForPoint lat lng).1 ∧
      ((b.getCellForPoint lat lng).2.getCellForPoint lat lng).2 =
        (b.getCellForPoint lat lng).2 := by
  cases hget : knownCellsGet b.knownCells
      (cellKey ⟨Int.floor (lat / b.tileWidth), Int.floor (lng / b.tileWidth)⟩) with
  | some c =>
    rw [getCellForPoint_eq_some b lat lng c hget]
    dsimp only
    rw [getCellForPoint_eq_some b lat lng c hget]
    exact ⟨rfl, rfl⟩
  | none =>
    rw [getCellForPoint_eq_none b lat lng hget]
    dsimp only
    rw [getCellForPoint_eq_some
      ⟨b.tileWidth, b.tileVisibilityRadius,
        (cellKey ⟨Int.floor (lat / b.tileWidth), Int.floor (lng / b.tileWidth)⟩,
          (⟨Int.floor (lat / b.tileWidth), Int.floor (lng / b.tileWidth)⟩ : Cell)) ::
          b.knownCells⟩
      lat lng
      ⟨Int.floor (lat / b.tileWidth), Int.floor (lng / b.tileWidth)⟩
      (by simp [knownCellsGet, List.find?_cons_of_pos])]
    exact ⟨rfl, rfl⟩

/-- C2: for integral fields with a nonnegative coin count, restoring the
memento of a `Geocache` into a fresh `Geocache` reproduces `i`, `j` and
`numCoins` exactly. -/
theorem geocache_momento_roundtrip (g0 : Geocache) (zi zj zn : Int) (hn : 0 ≤ zn) :
    g0.fromMomento (Geocache.ofInts zi zj zn).toMomento = Geocache.ofInts zi zj zn :=
  fromMomento_toMomento_ofInts g0 zi zj zn

/-- Witness for C2 at the concrete snapshot `5,5,2`. -/
theorem geocache_momento_roundtrip_witness :
    0 ≤ (2 : Int) ∧
      (Geocache.ofInts 0 0 0).fromMomento (Geocache.ofInts 5 5 2).toMomento =
        Geocache.ofInts 5 5 2 :=
  ⟨by decide, geocache_momento_roundtrip (Geocache.ofInts 0 0 0) 5 5 2 (by decide)⟩

/-- C7: when the deterministic value generator yields `v` in `[0, 1)` for the
key `cacheId + ",coins"`, `generateNumberOfCoins` returns
`floor(v * 10) + 1`, an integer between 1 and 10. -/
theorem generateNumberOfCoins_spec (luck : String → ℚ) (cacheId : String)
    (h0 : 0 ≤ luck (cacheId ++ ",coins")) (h1 : luck (cacheId ++ ",coins") < 1) :
    generateNumberOfCoins luck cacheId =
        Int.floor (luck (cacheId ++ ",coins") * 10) + 1 ∧
      1 ≤ generateNumberOfCoins luck cacheId ∧
      generateNumberOfCoins luck cacheId ≤ 10 := by
  have hfloor : generateNumberOfCoins luck cacheId =
      Int.floor (luck (cacheId ++ ",coins") * 10) + 1 := by
    rw [generateNumberOfCoins, Int.floor_add_one]
  refine ⟨hfloor, ?_, ?_⟩
  · rw [hfloor]
    have : (0 : Int) ≤ Int.floor (luck (cacheId ++ ",coins") * 10) :=
      Int.floor_nonneg.mpr (by positivity)
    omega
  · rw [hfloor]
    have : Int.floor (luck (cacheId ++ ",coins") * 10) < 10 := by
      rw [Int.floor_lt]
      calc luck (cacheId ++ ",coins") * 10 < 1 * 10 := by
            exact mul_lt_mul_of_pos_right h1 (by norm_num)
        _ = ((10 : Int) : ℚ) := by norm_num
    omega

/-- Witness for C7: a generator returning 0.37 gives
`floor(0.37 * 10) + 1 = 4` coins for `"cache-0"`. -/
theorem generateNumberOfCoins_witness :
    generateNumberOfCoins (fun _ => 37 / 100) "cache-0" =
        Int.floor ((37 / 100 : ℚ) * 10) + 1 ∧
      generateNumberOfCoins (fun _ => 37 / 100) "cache-0" = 4 :=
  ⟨(generateNumberOfCoins_spec (fun _ => 37 / 100) "cache-0" (by norm_num)
      (by norm_num)).1,
    by rw [generateNumberOfCoins]; norm_num⟩

-- Collect/deposit behaviour (claims C5, C6, C10).

/-- Player coins plus all coins sitting in materialized caches. -/
def totalCoins (s : GameState) : Nat :=
  s.playerCoins + (s.cacheLocations.map (fun g => g.coins.length)).sum

/-- A one-cache sample state used by the concrete witnesses. -/
def sampleCache : Cache := ⟨⟨1, 2⟩, [⟨"1:2#0", "cache-0"⟩], "cache-0"⟩

/-- Sample state: no player coins, one cache holding one coin. -/
def sampleState : GameState := ⟨0, [sampleCache], []⟩

/-- Sample state: one player coin, one empty cache. -/
def sampleStateHolding : GameState := ⟨1, [⟨⟨1, 2⟩, [], "cache-0"⟩], []⟩

/-- C5: on a cache with coins, `handleCollect` pops exactly one coin and
increments the player's count; on an empty cache it reports the
empty-cache branch and returns the state unchanged. -/
theorem handleCollect_spec (s : GameState) (index : Nat) (cache : Cache)
    (h : s.cacheLocations[index]? = some cache) :
    (0 < cache.coins.length →
      ∃ s2 coin, handleCollect s index = some (s2, CollectResult.ok coin) ∧
        s2.playerCoins = s.playerCoins + 1 ∧
        ∃ cache2, s2.cacheLocations[index]? = some cache2 ∧
          cache2.cell = cache.cell ∧ cache2.coins.length + 1 = cache.coins.length) ∧
    (cache.coins.length = 0 →
      handleCollect s index = some (s, CollectResult.emptyCacheError)) := by
  have hlen : index < s.cacheLocations.length := (List.getElem?_eq_some.mp h).1
  constructor
  · intro hpos
    have heq : handleCollect s index =
        some (⟨s.playerCoins + 1,
               s.cacheLocations.set index ⟨cache.cell, cache.coins.dropLast, cache.id⟩,
               s.geocacheMementos⟩,
              CollectResult.ok cache.coins.getLast?) := by
      rw [handleCollect, h]
      simp [hpos]
    refine ⟨_, cache.coins.getLast?, heq, rfl,
      ⟨cache.cell, cache.coins.dropLast, cache.id⟩, List.getElem?_set_self hlen, rfl, ?_⟩
    simp only [List.length_dropLast]
    omega
  · intro hzero
    rw [handleCollect, h]
    simp [hzero]

/-- Witness for C5 on the sample state (a cache with one coin). -/
theorem handleCollect_spec_witness :
    sampleState.cacheLocations[0]? = some sampleCache ∧
      ((0 < sampleCache.coins.length →
        ∃ s2 coin, handleCollect sampleState 0 = some (s2, CollectResult.ok coin) ∧
          s2.playerCoins = sampleState.playerCoins + 1 ∧
          ∃ cache2, s2.cacheLocations[0]? = some cache2 ∧
            cache2.cell = sampleCache.cell ∧
            cache2.coins.length + 1 = sampleCache.coins.length) ∧
      (sampleCache.coins.length = 0 →
        handleCollect sampleState 0 = some (sampleState, CollectResult.emptyCacheError))) :=
  ⟨rfl, handleCollect_spec sampleState 0 sampleCache rfl⟩

/-- C6: with a positive player balance, `handleDeposit` moves one coin unit
into the cache and decrements the balance; with a zero balance it reports
the no-coins branch and leaves the whole state unchanged. -/
theorem handleDeposit_spec (s : GameState) (index : Nat) (cache : Cache)
    (h : s.cacheLocations[index]? = some cache) :
    (0 < s.playerCoins →
      ∃ s2, handleDeposit s index = some (s2, DepositResult.ok) ∧
        s2.playerCoins + 1 = s.playerCoins ∧
        ∃ cache2, s2.cacheLocations[index]? = some cache2 ∧
          cache2.cell = cache.cell ∧ cache2.coins.length = cache.coins.length + 1) ∧
    (s.playerCoins = 0 →
      handleDeposit s index = some (s, DepositResult.noCoinsHeldError)) := by
  have hlen : index < s.cacheLocations.length := (List.getElem?_eq_some.mp h).1
  constructor
  · intro hpos
    have heq : handleDeposit s index =
        some (⟨s.playerCoins - 1,
               s.cacheLocations.set index
                 ⟨cache.cell,
                  cache.coins ++
                    [⟨"cache-" ++ natStr index ++ "-coin-" ++ natStr cache.coins.length,
                      cache.id⟩],
                  cache.id⟩,
               s.geocacheMementos⟩,
              DepositResult.ok) := by
      rw [handleDeposit]
      simp only [hpos, if_true, h]
    refine ⟨_, heq, by simp; omega, _, List.getElem?_set_self hlen, rfl, ?_⟩
    simp
  · intro hzero
    rw [handleDeposit]
    simp [hzero]

/-- Witness for C6 on the sample state with one held coin. -/
theorem handleDeposit_spec_witness :
    sampleStateHolding.cacheLocations[0]? = some ⟨⟨1, 2⟩, [], "cache-0"⟩ ∧
      ((0 < sampleStateHolding.playerCoins →
        ∃ s2, handleDeposit sampleStateHolding 0 = some (s2, DepositResult.ok) ∧
          s2.playerCoins + 1 = sampleStateHolding.playerCoins ∧
          ∃ cache2, s2.cacheLocations[0]? = some cache2 ∧
            cache2.cell = (⟨⟨1, 2⟩, [], "cache-0"⟩ : Cache).cell ∧
            cache2.coins.length = (⟨⟨1, 2⟩, [], "cache-0"⟩ : Cache).coins.length + 1) ∧
      (sampleStateHolding.playerCoins = 0 →
        handleDeposit sampleStateHolding 0 =
          some (sampleStateHolding, DepositResult.noCoinsHeldError))) :=
  ⟨rfl, handleDeposit_spec sampleStateHolding 0 ⟨⟨1, 2⟩, [], "cache-0"⟩ rfl⟩

theorem sum_map_set (f : Cache → Nat) (l : List Cache) (i : Nat) (a : Cache)
    (h : i < l.length) :
    ((l.set i a).map f).sum + f (l.get ⟨i, h⟩) = (l.map f).sum + f a := by
  induction l generalizing i with
  | nil => simp at h
  | cons x xs ih =>
    cases i with
    | zero =>
      simp only [List.set_cons_zero, List.map_cons, List.sum_cons, List.get]
      omega
    | succ n =>
      simp only [List.set_cons_succ, List.map_cons, List.sum_cons, List.get]
      have := ih n (by simpa using h)
      omega

/-- C10: every call to `handleCollect` or `handleDeposit`, successful or
not, preserves the player's coins plus the coins of all materialized
caches. -/
theorem coin_conservation (s : GameState) (index : Nat) :
    (∀ s2 r, handleCollect s index = some (s2, r) → totalCoins s2 = totalCoins s) ∧
    (∀ s2 r, handleDeposit s index = some (s2, r) → totalCoins s2 = totalCoins s) := by
  constructor
  · intro s2 r heq
    rw [handleCollect] at heq
    cases hidx : s.cacheLocations[index]? with
    | none =>
      rw [hidx] at heq
      exact absurd heq (by simp)
    | some cache =>
      rw [hidx] at heq
      have hlen : index < s.cacheLocations.length := (List.getElem?_eq_some.mp hidx).1
      have hget : s.cacheLocations.get ⟨index, hlen⟩ = cache := by
        rw [List.get_eq_getElem]
        exact (List.getElem?_eq_some.mp hidx).2
      by_cases hpos : 0 < cache.coins.length
      · simp only [hpos, if_true, Option.some.injEq, Prod.mk.injEq] at heq
        obtain ⟨hs2, -⟩ := heq
        have hsum := sum_map_set (fun g => g.coins.length) s.cacheLocations index
          ⟨cache.cell, cache.coins.dropLast, cache.id⟩ hlen
        rw [hget] at hsum
        simp only [List.length_dropLast] at hsum
        rw [← hs2]
        rw [totalCoins, totalCoins]
        simp only
        omega
      · simp only [hpos, if_false, Option.some.injEq, Prod.mk.injEq] at heq
        obtain ⟨hs2, -⟩ := heq
        rw [← hs2]
  · intro s2 r heq
    rw [handleDeposit] at heq
    by_cases hpos : 0 < s.playerCoins
    · simp only [hpos, if_true] at heq
      cases hidx : s.cacheLocations[index]? with
      | none =>
        rw [hidx] at heq
        exact absurd heq (by simp)
      | some cache =>
        rw [hidx] at heq
        have hlen : index < s.cacheLocations.length := (List.getElem?_eq_some.mp hidx).1
        have hget : s.cacheLocations.get ⟨index, hlen⟩ = cache := by
          rw [List.get_eq_getElem]
          exact (List.getElem?_eq_some.mp hidx).2
        simp only [Option.some.injEq, Prod.mk.injEq] at heq
        obtain ⟨hs2, -⟩ := heq
        have hsum := sum_map_set (fun g => g.coins.length) s.cacheLocations index
          ⟨cache.cell,
           cache.coins ++
             [⟨"cache-" ++ natStr index ++ "-coin-" ++ natStr cache.coins.length,
               cache.id⟩],
           cache.id⟩ hlen
        rw [hget] at hsum
        simp only [List.length_append, List.length_cons, List.length_nil] at hsum
        rw [← hs2]
        rw [totalCoins, totalCoins]
        simp only
        omega
    · simp only [hpos, if_false, Option.some.injEq, Prod.mk.injEq] at heq
      obtain ⟨hs2, -⟩ := heq
      rw [← hs2]

/-- Witness for C10 on the sample state. -/
theorem coin_conservation_witness :
    (∀ s2 r, handleCollect sampleState 0 = some (s2, r) →
      totalCoins s2 = totalCoins sampleState) ∧
    (∀ s2 r, handleDeposit sampleState 0 = some (s2, r) →
      totalCoins s2 = totalCoins sampleState) :=
  coin_conservation sampleState 0

-- The lifecycle pass materializes at most five caches (claim C9).

theorem genIteration_length (luck : String → ℚ) (env : Nat → CacheCandidate)
    (ms : List (String × String)) (i : Nat) :
    (genIteration luck env ms i).length ≤ 1 := by
  rw [genIteration]
  by_cases h : (env i).visible <;> simp [h]

theorem genCaches_length (luck : String → ℚ) (env : Nat → CacheCandidate)
    (ms : List (String × String)) (n : Nat) :
    (genCaches luck env ms n).length ≤ n := by
  induction n with
  | zero => simp [genCaches]
  | succ n ih =>
    rw [genCaches]
    simp only [List.length_append]
    have := genIteration_length luck env ms n
    omega

/-- C9: after any run of `updateCacheLocations` the number of materialized
caches is at most 5, whatever the visibility radius covers, because the
generation loop is hard-capped at `i < 5`. -/
theorem updateCacheLocations_at_most_five (luck : String → ℚ)
    (env : Nat → CacheCandidate) (s : GameState) :
    (updateCacheLocations luck env s).cacheLocations.length ≤ 5 := by
  rw [updateCacheLocations]
  exact genCaches_length luck env _ 5

-- Save-phase and generation-loop lemmas for the lifecycle pass.

theorem saveMementos_get_of_ne (ms : List (String × String)) (caches : List Cache)
    (key : String) (h : ∀ g ∈ caches, cellKey g.cell ≠ key) :
    storeGet (saveMementos ms caches) key = storeGet ms key := by
  induction caches generalizing ms with
  | nil => rfl
  | cons g rest ih =>
    rw [saveMementos]
    rw [ih _ (fun x hx => h x (List.mem_cons_of_mem g hx))]
    exact storeGet_set_ne ms _ _ key (Ne.symm (h g (List.mem_cons_self g rest)))

theorem saveMementos_get_of_mem (ms : List (String × String)) (caches : List Cache)
    (key v : String)
    (hex : ∃ g ∈ caches, cellKey g.cell = key)
    (hall : ∀ g ∈ caches, cellKey g.cell = key → cacheMomento g = v) :
    storeGet (saveMementos ms caches) key = some v := by
  induction caches generalizing ms with
  | nil =>
    rcases hex with ⟨g, hg, -⟩
    exact absurd hg (List.not_mem_nil g)
  | cons g rest ih =>
    rw [saveMementos]
    by_cases hrest : ∃ g2 ∈ rest, cellKey g2.cell = key
    · exact ih _ hrest (fun x hx hk2 => hall x (List.mem_cons_of_mem g hx) hk2)
    · rcases hex with ⟨g0, hg0, hk0⟩
      have hg0head : g0 = g := by
        rcases List.mem_cons.mp hg0 with he | hm
        · exact he
        · exact absurd ⟨g0, hm, hk0⟩ hrest
      subst hg0head
      rw [saveMementos_get_of_ne _ _ _ (fun x hx he => hrest ⟨x, hx, he⟩)]
      rw [← hk0, storeGet_set_same]
      rw [hall g0 (List.mem_cons_self g0 rest) hk0]

theorem mem_genCaches (luck : String → ℚ) (env : Nat → CacheCandidate)
    (ms : List (String × String)) (n : Nat) (g : Cache)
    (hg : g ∈ genCaches luck env ms n) :
    ∃ i, i < n ∧ (env i).visible = true ∧ g.cell = (env i).cell := by
  induction n with
  | zero => simp [genCaches] at hg
  | succ n ih =>
    rw [genCaches] at hg
    rcases List.mem_append.mp hg with hmem | hmem
    · rcases ih hmem with ⟨i, hi, hv, hc⟩
      exact ⟨i, Nat.lt_succ_of_lt hi, hv, hc⟩
    · rw [genIteration] at hmem
      by_cases hv : (env n).visible
      · simp only [hv, if_true, List.mem_singleton] at hmem
        exact ⟨n, Nat.lt_succ_self n, hv, by rw [hmem]⟩
      · simp [hv] at hmem

theorem genIteration_mem_genCaches (luck : String → ℚ) (env : Nat → CacheCandidate)
    (ms : List (String × String)) (k n : Nat) (hk : k < n) (g : Cache)
    (hg : g ∈ genIteration luck env ms k) : g ∈ genCaches luck env ms n := by
  induction n with
  | zero => omega
  | succ n ih =>
    rw [genCaches]
    rcases Nat.lt_succ_iff_lt_or_eq.mp hk with h | h
    · exact List.mem_append_left _ (ih h)
    · subst h
      exact List.mem_append_right _ hg

theorem genIteration_visible (luck : String → ℚ) (env : Nat → CacheCandidate)
    (ms : List (String × String)) (k : Nat) (hv : (env k).visible = true) :
    genIteration luck env ms k =
      [⟨(env k).cell,
        buildCoins (env k).cell ("cache-" ++ natStr k)
          (jsLoopCount (iterationNumCoins luck ms ("cache-" ++ natStr k) (env k).cell)),
        "cache-" ++ natStr k⟩] := by
  rw [genIteration]
  simp [hv]

theorem iterationNumCoins_of_momento (luck : String → ℚ)
    (ms : List (String × String)) (cacheId : String) (c : Cell) (zn : Int)
    (hms : storeGet ms (cellKey c) = some ((Geocache.ofInts c.i c.j zn).toMomento)) :
    iterationNumCoins luck ms cacheId c = JSNum.num ((zn : Int) : ℚ) := by
  rw [iterationNumCoins, hms]
  dsimp only
  rw [if_neg (toMomento_ofInts_ne_empty c.i c.j zn)]
  rw [fromMomento_toMomento_ofInts]
  rfl

theorem jsLoopCount_natCast (n : Nat) : jsLoopCount (JSNum.num ((n : Int) : ℚ)) = n := by
  rw [jsLoopCount]
  push_cast
  rw [Int.ceil_natCast]
  exact Int.toNat_natCast n

theorem buildCoins_length (c : Cell) (cacheId : String) (n : Nat) :
    (buildCoins c cacheId n).length = n := by
  rw [buildCoins]
  simp

/-- C1: a cache live at cell `c` with `n` coins whose cell is not visible in
the next lifecycle pass (eviction) is restored by a later pass in which the
cell is visible again, with exactly the `n` coins recorded in the stored
memento — not a freshly generated count. -/
theorem evicted_cache_restored_with_saved_count
    (luck : String → ℚ) (env1 env2 : Nat → CacheCandidate) (s : GameState)
    (c : Cell) (n : Nat)
    (hmem : ∃ g ∈ s.cacheLocations, g.cell = c)
    (hcount : ∀ g ∈ s.cacheLocations, g.cell = c → g.coins.length = n)
    (hev : ∀ i, (env1 i).visible = true → (env1 i).cell ≠ c)
    (k : Nat) (hk : k < 5) (hvis : (env2 k).visible = true)
    (hcell : (env2 k).cell = c) :
    ∃ g ∈ (updateCacheLocations luck env2
        (updateCacheLocations luck env1 s)).cacheLocations,
      g.cell = c ∧ g.coins.length = n := by
  have hget1 : storeGet (saveMementos s.geocacheMementos s.cacheLocations) (cellKey c) =
      some ((Geocache.ofInts c.i c.j (n : Int)).toMomento) := by
    apply saveMementos_get_of_mem
    · rcases hmem with ⟨g, hg, hc⟩
      exact ⟨g, hg, by rw [hc]⟩
    · intro g hg hk2
      have hcc : g.cell = c := cellKey_injective _ _ hk2
      rw [cacheMomento, hcc, hcount g hg hcc]
  have hnoc : ∀ g ∈ genCaches luck env1 (saveMementos s.geocacheMementos s.cacheLocations) 5,
      cellKey g.cell ≠ cellKey c := by
    intro g hg he
    rcases mem_genCaches luck env1 _ 5 g hg with ⟨i, hi, hv, hc2⟩
    exact hev i hv (hc2 ▸ cellKey_injective _ _ he)
  have hget2 : storeGet
      (saveMementos (saveMementos s.geocacheMementos s.cacheLocations)
        (genCaches luck env1 (saveMementos s.geocacheMementos s.cacheLocations) 5))
      (cellKey c) = some ((Geocache.ofInts c.i c.j (n : Int)).toMomento) := by
    rw [saveMementos_get_of_ne _ _ _ hnoc]
    exact hget1
  have hnum := iterationNumCoins_of_momento luck _ ("cache-" ++ natStr k) c (n : Int) hget2
  have hiter := genIteration_visible luck env2
    (saveMementos (saveMementos s.geocacheMementos s.cacheLocations)
      (genCaches luck env1 (saveMementos s.geocacheMementos s.cacheLocations) 5))
    k hvis
  rw [hcell, hnum] at hiter
  have hs2 : (updateCacheLocations luck env2
      (updateCacheLocations luck env1 s)).cacheLocations =
      genCaches luck env2
        (saveMementos (saveMementos s.geocacheMementos s.cacheLocations)
          (genCaches luck env1 (saveMementos s.geocacheMementos s.cacheLocations) 5)) 5 := rfl
  rw [hs2]
  refine ⟨⟨c, buildCoins c ("cache-" ++ natStr k) (jsLoopCount (JSNum.num ((n : Int) : ℚ))),
    "cache-" ++ natStr k⟩, ?_, rfl, ?_⟩
  · apply genIteration_mem_genCaches luck env2 _ k 5 hk
    rw [hiter]
    exact List.mem_singleton.mpr rfl
  · rw [buildCoins_length, jsLoopCount_natCast]

/-- Scenario-D state: one live cache at cell `(5,5)` holding two coins. -/
def evictSample : GameState :=
  ⟨0, [⟨⟨5, 5⟩, [⟨"5:5#0", "cache-0"⟩, ⟨"5:5#1", "cache-0"⟩], "cache-0"⟩], []⟩

/-- An environment in which no computed location passes the visibility test. -/
def envAway : Nat → CacheCandidate := fun _ => ⟨false, ⟨0, 0⟩⟩

/-- An environment in which every iteration resolves to cell `(5,5)`,
visibly. -/
def envBack : Nat → CacheCandidate := fun _ => ⟨true, ⟨5, 5⟩⟩

/-- A deterministic value generator pinned to one half. -/
def luckHalf : String → ℚ := fun _ => 1 / 2

/-- Witness for C1: evicting the two-coin cache at `(5,5)` and coming back
restores exactly two coins. -/
theorem evicted_cache_restored_witness :
    (∃ g ∈ evictSample.cacheLocations, g.cell = ⟨5, 5⟩) ∧
      (∀ g ∈ evictSample.cacheLocations, g.cell = ⟨5, 5⟩ → g.coins.length = 2) ∧
      (∀ i, (envAway i).visible = true → (envAway i).cell ≠ ⟨5, 5⟩) ∧
      (0 : Nat) < 5 ∧ (envBack 0).visible = true ∧ (envBack 0).cell = ⟨5, 5⟩ ∧
      ∃ g ∈ (updateCacheLocations luckHalf envBack
          (updateCacheLocations luckHalf envAway evictSample)).cacheLocations,
        g.cell = ⟨5, 5⟩ ∧ g.coins.length = 2 :=
  ⟨by decide, by decide, fun i h => Bool.noConfusion h, by decide, rfl, rfl,
    evicted_cache_restored_with_saved_count luckHalf envAway envBack evictSample ⟨5, 5⟩ 2
      (by decide) (by decide) (fun i h => Bool.noConfusion h) 0 (by decide) rfl rfl⟩

-- Claim C4: coin provenance across collect/deposit.

/-- Sample state with one held player coin and the one-coin cache. -/
def sampleBoth : GameState := ⟨1, [sampleCache], []⟩

/-- C4 counterexample: collecting the only coin (id `1:2#0`) and then
depositing does not move that coin back — `handleDeposit` mints a fresh
coin `cache-0-coin-0`, and no coin with the collected id exists anywhere
afterwards, so provenance is not preserved across a collect/deposit
transfer. -/
theorem coin_provenance_counterexample :
    handleCollect sampleState 0 =
        some (⟨1, [⟨⟨1, 2⟩, [], "cache-0"⟩], []⟩,
          CollectResult.ok (some ⟨"1:2#0", "cache-0"⟩)) ∧
      handleDeposit ⟨1, [⟨⟨1, 2⟩, [], "cache-0"⟩], []⟩ 0 =
        some (⟨0, [⟨⟨1, 2⟩, [⟨"cache-0-coin-0", "cache-0"⟩], "cache-0"⟩], []⟩,
          DepositResult.ok) ∧
      ∀ g ∈ ([⟨⟨1, 2⟩, [⟨"cache-0-coin-0", "cache-0"⟩], "cache-0"⟩] : List Cache),
        ∀ coin ∈ g.coins, coin.id ≠ "1:2#0" := by
  refine ⟨?_, ?_, ?_⟩ <;> decide

/-- C4 amended: transfers do not preserve coin identity.  `handleCollect`
pops the last coin and retains only a count (the popped coin object is
discarded), and `handleDeposit` mints a brand-new coin whose id is
`cache-<index>-coin-<priorSize>` with the target cache as originating
cache, rather than moving a previously collected coin. -/
theorem coin_transfer_mints_and_discards (s : GameState) (index : Nat) (cache : Cache)
    (h : s.cacheLocations[index]? = some cache) :
    (0 < s.playerCoins →
      ∃ s2, handleDeposit s index = some (s2, DepositResult.ok) ∧
        ∃ cache2, s2.cacheLocations[index]? = some cache2 ∧
          cache2.coins = cache.coins ++
            [⟨"cache-" ++ natStr index ++ "-coin-" ++ natStr cache.coins.length,
              cache.id⟩]) ∧
    (0 < cache.coins.length →
      ∃ s2, handleCollect s index = some (s2, CollectResult.ok cache.coins.getLast?) ∧
        s2.playerCoins = s.playerCoins + 1 ∧
        ∃ cache2, s2.cacheLocations[index]? = some cache2 ∧
          cache2.coins = cache.coins.dropLast) := by
  have hlen : index < s.cacheLocations.length := (List.getElem?_eq_some.mp h).1
  constructor
  · intro hpos
    have heq : handleDeposit s index =
        some (⟨s.playerCoins - 1,
               s.cacheLocations.set index
                 ⟨cache.cell,
                  cache.coins ++
                    [⟨"cache-" ++ natStr index ++ "-coin-" ++ natStr cache.coins.length,
                      cache.id⟩],
                  cache.id⟩,
               s.geocacheMementos⟩,
              DepositResult.ok) := by
      rw [handleDeposit]
      simp only [hpos, if_true, h]
    exact ⟨_, heq, _, List.getElem?_set_self hlen, rfl⟩
  · intro hpos
    have heq : handleCollect s index =
        some (⟨s.playerCoins + 1,
               s.cacheLocations.set index ⟨cache.cell, cache.coins.dropLast, cache.id⟩,
               s.geocacheMementos⟩,
              CollectResult.ok cache.coins.getLast?) := by
      rw [handleCollect, h]
      simp [hpos]
    exact ⟨_, heq, rfl, _, List.getElem?_set_self hlen, rfl⟩

/-- Witness for the amended C4 on the sample state holding one coin. -/
theorem coin_transfer_mints_witness :
    sampleBoth.cacheLocations[0]? = some sampleCache ∧
      ((0 < sampleBoth.playerCoins →
        ∃ s2, handleDeposit sampleBoth 0 = some (s2, DepositResult.ok) ∧
          ∃ cache2, s2.cacheLocations[0]? = some cache2 ∧
            cache2.coins = sampleCache.coins ++
              [⟨"cache-" ++ natStr 0 ++ "-coin-" ++ natStr sampleCache.coins.length,
                sampleCache.id⟩]) ∧
      (0 < sampleCache.coins.length →
        ∃ s2, handleCollect sampleBoth 0 =
            some (s2, CollectResult.ok sampleCache.coins.getLast?) ∧
          s2.playerCoins = sampleBoth.playerCoins + 1 ∧
          ∃ cache2, s2.cacheLocations[0]? = some cache2 ∧
            cache2.coins = sampleCache.coins.dropLast)) :=
  ⟨rfl, coin_transfer_mints_and_discards sampleBoth 0 sampleCache rfl⟩

-- Claim C8: malformed snapshots.

/-- The third component `fromMomento` reads from a memento string:
`momento.split(",").map(Number)[2]`, `undefined` when the split has fewer
than three parts. -/
def momentoThird (m : String) : JSNum :=
  ((splitOnChar ',' m.data).map jsNumberL).getD 2 JSNum.undef

/-- C8 counterexample: with the stored snapshot `"garbage"` for cell
`(0,0)` and a generator that would freshly produce 4 coins, the pass does
NOT fall back to fresh generation — it materializes the cache with 0 coins
(`fromMomento` leaves `undefined` in `numCoins`). -/
theorem malformed_snapshot_counterexample :
    (updateCacheLocations (fun _ => 37 / 100)
        (fun i => if i = 0 then ⟨true, ⟨0, 0⟩⟩ else ⟨false, ⟨0, 0⟩⟩)
        ⟨0, [], [("0,0", "garbage")]⟩).cacheLocations =
      [⟨⟨0, 0⟩, [], "cache-0"⟩] ∧
    generateNumberOfCoins (fun _ => 37 / 100) "cache-0" = 4 := by
  constructor
  · decide
  · rw [generateNumberOfCoins]
    norm_num

/-- C8 amended: a malformed snapshot (nonempty stored string whose third
comma-separated field is not numeric) never aborts the pass: the affected
visible cell is materialized with zero coins (not a freshly generated
count), and every other visible candidate is still materialized normally. -/
theorem malformed_snapshot_zero_coins (luck : String → ℚ)
    (env : Nat → CacheCandidate) (s : GameState) (k : Nat)
    (hk : k < 5) (hvis : (env k).visible = true) (m : String)
    (hm : storeGet (saveMementos s.geocacheMementos s.cacheLocations)
      (cellKey (env k).cell) = some m)
    (hne : m ≠ "")
    (hbad : momentoThird m = JSNum.nan ∨ momentoThird m = JSNum.undef) :
    (∃ g ∈ (updateCacheLocations luck env s).cacheLocations,
      g.cell = (env k).cell ∧ g.id = "cache-" ++ natStr k ∧ g.coins = []) ∧
    (∀ i, i < 5 → (env i).visible = true →
      ∃ g ∈ (updateCacheLocations luck env s).cacheLocations,
        g.cell = (env i).cell ∧ g.id = "cache-" ++ natStr i) := by
  have hres : (updateCacheLocations luck env s).cacheLocations =
      genCaches luck env (saveMementos s.geocacheMementos s.cacheLocations) 5 := rfl
  constructor
  · have hnum : iterationNumCoins luck
        (saveMementos s.geocacheMementos s.cacheLocations)
        ("cache-" ++ natStr k) (env k).cell = momentoThird m := by
      rw [iterationNumCoins, hm]
      dsimp only
      rw [if_neg hne]
      rfl
    have hiter := genIteration_visible luck env
      (saveMementos s.geocacheMementos s.cacheLocations) k hvis
    rw [hnum] at hiter
    have hzero : jsLoopCount (momentoThird m) = 0 := by
      rcases hbad with hb | hb <;> rw [hb] <;> rfl
    rw [hzero] at hiter
    rw [hres]
    refine ⟨⟨(env k).cell, buildCoins (env k).cell ("cache-" ++ natStr k) 0,
      "cache-" ++ natStr k⟩, ?_, rfl, rfl, ?_⟩
    · apply genIteration_mem_genCaches luck env _ k 5 hk
      rw [hiter]
      exact List.mem_singleton.mpr rfl
    · rw [buildCoins]
      simp
  · intro i hi hvi
    have hiter := genIteration_visible luck env
      (saveMementos s.geocacheMementos s.cacheLocations) i hvi
    rw [hres]
    refine ⟨⟨(env i).cell,
      buildCoins (env i).cell ("cache-" ++ natStr i)
        (jsLoopCount (iterationNumCoins luck
          (saveMementos s.geocacheMementos s.cacheLocations)
          ("cache-" ++ natStr i) (env i).cell)),
      "cache-" ++ natStr i⟩, ?_, rfl, rfl⟩
    apply genIteration_mem_genCaches luck env _ i 5 hi
    rw [hiter]
    exact List.mem_singleton.mpr rfl

/-- Witness for the amended C8 at the concrete `"garbage"` snapshot. -/
theorem malformed_snapshot_zero_coins_witness :
    (0 : Nat) < 5 ∧
      ((fun i => if i = 0 then (⟨true, ⟨0, 0⟩⟩ : CacheCandidate)
        else ⟨false, ⟨0, 0⟩⟩) 0).visible = true ∧
      storeGet (saveMementos (⟨0, [], [("0,0", "garbage")]⟩ : GameState).geocacheMementos
          (⟨0, [], [("0,0", "garbage")]⟩ : GameState).cacheLocations)
        (cellKey ((fun i => if i = 0 then (⟨true, ⟨0, 0⟩⟩ : CacheCandidate)
          else ⟨false, ⟨0, 0⟩⟩) 0).cell) = some "garbage" ∧
      "garbage" ≠ "" ∧
      momentoThird "garbage" = JSNum.undef ∧
      ((∃ g ∈ (updateCacheLocations (fun _ => 37 / 100)
            (fun i => if i = 0 then (⟨true, ⟨0, 0⟩⟩ : CacheCandidate)
              else ⟨false, ⟨0, 0⟩⟩)
            ⟨0, [], [("0,0", "garbage")]⟩).cacheLocations,
          g.cell = ((fun i => if i = 0 then (⟨true, ⟨0, 0⟩⟩ : CacheCandidate)
            else ⟨false, ⟨0, 0⟩⟩) 0).cell ∧
          g.id = "cache-" ++ natStr 0 ∧ g.coins = []) ∧
        (∀ i, i < 5 → ((fun i => if i = 0 then (⟨true, ⟨0, 0⟩⟩ : CacheCandidate)
            else ⟨false, ⟨0, 0⟩⟩) i).visible = true →
          ∃ g ∈ (updateCacheLocations (fun _ => 37 / 100)
              (fun i => if i = 0 then (⟨true, ⟨0, 0⟩⟩ : CacheCandidate)
                else ⟨false, ⟨0, 0⟩⟩)
              ⟨0, [], [("0,0", "garbage")]⟩).cacheLocations,
            g.cell = ((fun i => if i = 0 then (⟨true, ⟨0, 0⟩⟩ : CacheCandidate)
              else ⟨false, ⟨0, 0⟩⟩) i).cell ∧
            g.id = "cache-" ++ natStr i)) :=
  ⟨by decide, rfl, by decide, by decide, by decide,
    malformed_snapshot_zero_coins (fun _ => 37 / 100)
      (fun i => if i = 0 then ⟨true, ⟨0, 0⟩⟩ else ⟨false, ⟨0, 0⟩⟩)
      ⟨0, [], [("0,0", "garbage")]⟩ 0 (by decide) rfl "garbage" (by decide)
      (by decide) (Or.inr (by decide))⟩

end Demo3
